import Mathlib

/-!
Verification of the cmrv2 delivery-note pipeline (src/app.js).

The embedding below translates the field-derivation engine
(`parseAantal`, `parseUnit`, `deriveFields`), the dedupe store
(`addNotes`, `loadStoredRows`), the bounded-concurrency page scheduler
(`processQueue`), the extract-response handling
(`callExtractApi`/`handlePage`) and the CSV escaping (`formatCsvValue`)
into executable Lean definitions.  JavaScript numbers are modelled as
exact rationals together with NaN and signed infinities (IEEE-754
rounding is not modelled; on the small decimal literals exercised by
the pipeline the two semantics agree).  Strings are Lean `String`s.
-/

/-- A JavaScript number as produced by `parseFloat` and arithmetic on its
results: NaN, a signed infinity (`inf true` is negative), or a finite
value held as an exact rational. -/
inductive JsFloat where
  | nan : JsFloat
  | inf : Bool → JsFloat
  | finite : ℚ → JsFloat
deriving DecidableEq, Repr

/-- ASCII decimal digit test, the `[0-9]` character class. -/
def isAsciiDigit (c : Char) : Bool := '0' ≤ c && c ≤ '9'

/-- ASCII uppercase test, the `[A-Z]` character class. -/
def isAsciiUpper (c : Char) : Bool := 'A' ≤ c && c ≤ 'Z'

/-- Whitespace skipped by JS `parseFloat`/`parseInt` (the common ASCII
white-space characters; exotic Unicode spaces are not modelled). -/
def isJsSpace (c : Char) : Bool :=
  c = ' ' || c = '\t' || c = '\n' || c = '\r' || c = '\x0b' || c = '\x0c'

/-- Numeric value of an ASCII digit character. -/
def digitVal (c : Char) : ℕ := c.toNat - '0'.toNat

/-- Split a character list into its longest ASCII-digit prefix and the rest. -/
def takeDigits : List Char → List Char × List Char
  | [] => ([], [])
  | c :: cs =>
    if isAsciiDigit c then
      let p := takeDigits cs
      (c :: p.1, p.2)
    else ([], c :: cs)

/-- Base-10 value of a digit string. -/
def digitsToNat (ds : List Char) : ℕ :=
  ds.foldl (fun acc c => 10 * acc + digitVal c) 0

/-- Parse an optionally signed run of decimal digits (used for `parseInt`
and for the exponent part of `parseFloat`); `none` when no digit follows. -/
def parseSignedDigits (l : List Char) : Option ℤ :=
  match l with
  | '+' :: r =>
    let d := (takeDigits r).1
    if d = [] then none else some (digitsToNat d : ℤ)
  | '-' :: r =>
    let d := (takeDigits r).1
    if d = [] then none else some (-(digitsToNat d : ℤ))
  | l =>
    let d := (takeDigits l).1
    if d = [] then none else some (digitsToNat d : ℤ)

/-- Exponent part of a JS float literal: `e`/`E` followed by signed digits;
a missing or malformed exponent contributes a factor of one (the longest
valid prefix was the mantissa alone). -/
def parseExponent (l : List Char) : ℤ :=
  match l with
  | c :: r => if c = 'e' || c = 'E' then (parseSignedDigits r).getD 0 else 0
  | [] => 0

/-- Unsigned decimal mantissa: `digits`, `digits.`, `digits.digits` or
`.digits`; returns all mantissa digits as one natural number, the count
of fractional digits, and the unconsumed rest; `none` when no digit is
present at all. -/
def parseMantissa (l : List Char) : Option (ℕ × ℕ × List Char) :=
  let ip := takeDigits l
  match ip.2 with
  | '.' :: r2 =>
    let fp := takeDigits r2
    if ip.1 = [] ∧ fp.1 = [] then none
    else some (digitsToNat ip.1 * 10 ^ fp.1.length + digitsToNat fp.1, fp.1.length, fp.2)
  | _ => if ip.1 = [] then none else some (digitsToNat ip.1, 0, ip.2)

/-- Exact rational value of the decimal literal with mantissa digits `n`,
`scale` fractional digits and decimal exponent `e`, i.e.
`n / 10 ^ scale * 10 ^ e` (phrased through `mkRat` so that it evaluates
inside the kernel). -/
def decValue (n : ℕ) (scale : ℕ) (e : ℤ) : ℚ :=
  mkRat ((n : ℤ) * ((10 : ℕ) ^ (e - (scale : ℤ)).toNat : ℕ)) ((10 : ℕ) ^ ((scale : ℤ) - e).toNat)

/-- Body of `parseFloat` after an optional sign: the literal `Infinity`,
or a decimal mantissa with optional exponent; NaN when no prefix of the
input is a valid decimal literal. -/
def parseFloatCore (l : List Char) (neg : Bool) : JsFloat :=
  if l.take 8 = "Infinity".data then JsFloat.inf neg
  else
    match parseMantissa l with
    | none => JsFloat.nan
    | some (n, scale, rest) =>
      let q := decValue n scale (parseExponent rest)
      JsFloat.finite (if neg then -q else q)

/-- JS `parseFloat`: skip leading whitespace, optional sign, then the
longest prefix that is a decimal literal (or `Infinity`); NaN otherwise. -/
def jsParseFloat (s : String) : JsFloat :=
  match s.data.dropWhile isJsSpace with
  | '+' :: r => parseFloatCore r false
  | '-' :: r => parseFloatCore r true
  | l => parseFloatCore l false

/-- JS `parseInt(s, 10)`: skip whitespace, optional sign, longest digit
prefix; `none` models NaN. -/
def jsParseIntDec (s : String) : Option ℤ :=
  parseSignedDigits (s.data.dropWhile isJsSpace)

/-- JS `String.prototype.replace` with the one-character string pattern
`','`: only the first occurrence is replaced. -/
def replaceFirst (pat repl : Char) : List Char → List Char
  | [] => []
  | c :: cs => if c = pat then repl :: cs else c :: replaceFirst pat repl cs

/-- `raw.replace(',', '.')` from `parseAantal` (first comma only). -/
def jsReplaceCommaDot (s : String) : String :=
  String.mk (replaceFirst ',' '.' s.data)

/-- JS `Math.round` on the result of `parseFloat`: half-up rounding
`⌊x + 1/2⌋` on finite values (phrased through integer division so that it
evaluates inside the kernel; the `⌊x + 1/2⌋` characterisation is proved
below); NaN and the infinities are returned unchanged. -/
def jsRound : JsFloat → JsFloat
  | .nan => .nan
  | .inf b => .inf b
  | .finite q => .finite (((2 * q.num + (q.den : ℤ)) / (2 * (q.den : ℤ)) : ℤ) : ℚ)

/-- JS division by two, `x / 2`, on the result of `parseFloat` (phrased
through `mkRat` so that it evaluates inside the kernel; the `q / 2`
characterisation is proved below). -/
def jsHalf : JsFloat → JsFloat
  | .nan => .nan
  | .inf b => .inf b
  | .finite q => .finite (mkRat q.num (2 * q.den))

example : jsParseFloat "12.5" = JsFloat.finite (mkRat 25 2) := by decide
example : jsParseFloat (jsReplaceCommaDot "12,5") = JsFloat.finite (mkRat 25 2) := by decide
example : jsParseFloat "abc" = JsFloat.nan := by decide
example : jsParseFloat "1.2,3" = JsFloat.finite (mkRat 6 5) := by decide
example : jsParseFloat "-Infinity" = JsFloat.inf true := by decide
example : jsParseFloat "1e-2" = JsFloat.finite (mkRat 1 100) := by decide
example : jsParseFloat "" = JsFloat.nan := by decide
example : jsRound (jsHalf (jsParseFloat "9")) = JsFloat.finite (mkRat 5 1) := by decide
example : jsParseIntDec "15" = some 15 := by decide

/-- On finite values `jsRound` is exactly half-up rounding to the nearest
integer, `⌊x + 1/2⌋`. -/
theorem jsRound_finite (q : ℚ) :
    jsRound (JsFloat.finite q) = JsFloat.finite ((⌊q + 1 / 2⌋ : ℤ) : ℚ) := by
  show JsFloat.finite _ = JsFloat.finite _
  congr 1
  congr 1
  have hden : ((q.den : ℚ)) ≠ 0 := by positivity
  have hnum : (q.num : ℚ) = q * q.den := (div_eq_iff hden).mp (Rat.num_div_den q)
  have hq : q + 1 / 2 = (((2 * q.num + (q.den : ℤ) : ℤ) : ℚ)) / (((2 * q.den : ℕ) : ℚ)) := by
    push_cast
    field_simp
    rw [hnum]
    ring
  rw [hq, Rat.floor_intCast_div_natCast]
  push_cast
  ring

/-- On finite values `jsHalf` is exactly division by two. -/
theorem jsHalf_finite (q : ℚ) :
    jsHalf (JsFloat.finite q) = JsFloat.finite (q / 2) := by
  show JsFloat.finite _ = JsFloat.finite _
  congr 1
  rw [Rat.mkRat_eq_div]
  rw [div_eq_div_iff (by positivity) (by norm_num)]
  push_cast
  have hden : ((q.den : ℚ)) ≠ 0 := by positivity
  rw [(div_eq_iff hden).mp (Rat.num_div_den q)]
  ring

/-- Strip leading and trailing whitespace from a character list. -/
def trimChars (l : List Char) : List Char :=
  ((l.dropWhile isJsSpace).reverse.dropWhile isJsSpace).reverse

/-- JS `String.prototype.trim` (the common ASCII white-space characters;
exotic Unicode spaces are not modelled). -/
def jsTrim (s : String) : String :=
  String.mk (trimChars s.data)

example : jsTrim "  a b\n" = "a b" := by decide

/-- `parseAantal(raw, warnings)` from src/app.js: empty string (JS falsy)
records "Missing aantal."; otherwise the first comma is replaced by a dot
and the string is given to `parseFloat`; NaN records "Aantal is not a
number."; pushed warnings are modelled by returning the extended list. -/
def parseAantal (raw : String) (warnings : List String) : Option JsFloat × List String :=
  if raw = "" then (none, warnings ++ ["Missing aantal."])
  else
    let num := jsParseFloat (jsReplaceCommaDot raw)
    if num = JsFloat.nan then (none, warnings ++ ["Aantal is not a number."])
    else (some num, warnings)

/-- Result record of `parseUnit` from src/app.js. -/
structure UnitInfo where
  valid : Bool
  letter : String
  digits : Option ℤ
deriving DecidableEq, Repr

/-- The test of the regular expression `^[A-Z][0-9]{2}$` from `parseUnit`:
exactly one ASCII uppercase letter followed by exactly two ASCII digits. -/
def unitPatternTest (s : String) : Bool :=
  match s.data with
  | [a, b, c] => isAsciiUpper a && isAsciiDigit b && isAsciiDigit c
  | _ => false

/-- `parseUnit(raw, warnings)` from src/app.js: validity by the pattern
test, letter is the first character (empty string when `raw` is empty,
computed regardless of validity), digits is `parseInt(raw.slice(1), 10)`
only when valid. -/
def parseUnit (raw : String) (warnings : List String) : UnitInfo × List String :=
  let valid := unitPatternTest raw
  ({ valid := valid,
     letter := match raw.data with | [] => "" | c :: _ => String.mk [c],
     digits := if valid then jsParseIntDec (String.mk (raw.data.drop 1)) else none },
   if valid then warnings else warnings ++ ["Unit format invalid."])

/-- The page metadata sent with one extraction request
(`{fileName, fileIndex, pageIndex}` in `handlePage`). -/
structure PageMeta where
  fileName : String
  fileIndex : ℕ
  pageIndex : ℕ
deriving DecidableEq, Repr

/-- One raw extracted note as consumed by `addNotes`/`deriveFields`.
The date, quantity and unit fields are optional strings so that a JS
`undefined` field (collapsed by `|| ''`) is distinguishable from an
empty string; the extraction schema constrains present fields to
strings. -/
structure RawNote where
  datum : Option String
  aantal : Option String
  unit : Option String
deriving DecidableEq, Repr

/-- One derived row as built by `deriveFields` and persisted by
`addNotes` (the random `id`, the duplicated `meta` object and the
presentation-only `noteIndex` are omitted; `fileName`/`pageIndex` carry
the metadata the dedupe logic reads). -/
structure DerivedRow where
  datum : String
  aantal : String
  unit : String
  hoogte_enkel : Option ℤ
  hoogte_stack : Option ℤ
  aantal2 : Option JsFloat
  pallet : String
  warnings : List String
  duplicate : Bool
  raw : RawNote
  fileName : String
  pageIndex : ℕ
deriving DecidableEq, Repr

/-- `deriveFields(note, meta)` from src/app.js, the pure field-derivation
engine. -/
def deriveFields (note : RawNote) (meta : PageMeta) : DerivedRow :=
  let safeDatum := jsTrim (note.datum.getD "")
  let rawAantal := jsTrim (note.aantal.getD "")
  let rawUnit := jsTrim (note.unit.getD "")
  let pa := parseAantal rawAantal []
  let pu := parseUnit rawUnit pa.2
  let unitInfo := pu.1
  let hoogte_enkel : Option ℤ :=
    if unitInfo.valid then unitInfo.digits.map (· * 10) else none
  let warnings :=
    if unitInfo.valid then pu.2 else pu.2 ++ ["Unit invalid; hoogte_enkel missing."]
  let hoogte_stack : Option ℤ :=
    match hoogte_enkel with
    | none => none
    | some h => some (if h ≤ 150 then h * 2 else h)
  let shortTier : Bool :=
    match hoogte_enkel with
    | some h => if h ≤ 150 then true else false
    | none => false
  let aantal2 : Option JsFloat :=
    match pa.1 with
    | none => none
    | some a => some (if shortTier then jsRound (jsHalf a) else jsRound a)
  { datum := safeDatum
    aantal := rawAantal
    unit := rawUnit
    hoogte_enkel := hoogte_enkel
    hoogte_stack := hoogte_stack
    aantal2 := aantal2
    pallet := if unitInfo.letter = "M" then "BLOK" else "EURO"
    warnings := warnings
    duplicate := false
    raw := note
    fileName := meta.fileName
    pageIndex := meta.pageIndex }

/-- The composite dedupe key built in `addNotes`:
`` `${meta.fileName}|${meta.pageIndex}|${note.datum || ''}|${note.aantal || ''}|${note.unit || ''}` ``. -/
def dedupeKey (meta : PageMeta) (note : RawNote) : String :=
  meta.fileName ++ "|" ++ toString meta.pageIndex ++ "|" ++ note.datum.getD "" ++ "|" ++
    note.aantal.getD "" ++ "|" ++ note.unit.getD ""

/-- The claim-relevant parts of the mutable session state: the persisted
rows and the dedupe key set (`state.rows` / `state.dedupe`; the JS `Set`
is modelled as the list of admitted keys, membership-equivalent). -/
structure AppState where
  rows : List DerivedRow
  dedupe : List String
deriving DecidableEq, Repr

/-- The empty session state. -/
def AppState.empty : AppState := ⟨[], []⟩

/-- The body of the `notes.forEach` loop in `addNotes`: drop the note when
its key was already admitted, otherwise record the key and append the
derived row. -/
def addNote (meta : PageMeta) (st : AppState) (note : RawNote) : AppState :=
  let key := dedupeKey meta note
  if key ∈ st.dedupe then st
  else { rows := st.rows ++ [deriveFields note meta], dedupe := st.dedupe ++ [key] }

/-- `addNotes(notes, meta)` from src/app.js (the subsequent `saveRows` /
re-render calls do not change `rows`/`dedupe`). -/
def addNotes (notes : List RawNote) (meta : PageMeta) (st : AppState) : AppState :=
  notes.foldl (addNote meta) st

/-- The key recomputed for one stored row in `loadStoredRows`:
`` `${r.fileName}|${r.pageIndex}|${r.datum || ''}|${r.aantal || ''}|${r.unit || ''}` ``
— note it reads the row's normalised (trimmed) fields, not the raw note. -/
def storedRowKey (r : DerivedRow) : String :=
  r.fileName ++ "|" ++ toString r.pageIndex ++ "|" ++ r.datum ++ "|" ++
    r.aantal ++ "|" ++ r.unit

/-- `loadStoredRows` from src/app.js on a successfully parsed stored
collection: the rows are restored and the dedupe set is rehydrated from
each stored row's recomputed key. -/
def loadStoredRows (stored : List DerivedRow) : AppState :=
  { rows := stored, dedupe := stored.map storedRowKey }

/-- The pre-normalisation dedupe key of a persisted row, recomputed from
the original raw note it carries — the key under which `addNotes`
admitted it. -/
def rowRawKey (r : DerivedRow) : String :=
  r.fileName ++ "|" ++ toString r.pageIndex ++ "|" ++ r.raw.datum.getD "" ++ "|" ++
    r.raw.aantal.getD "" ++ "|" ++ r.raw.unit.getD ""

example : (deriveFields ⟨some "01-01-2024", some "10", some "E28"⟩ ⟨"t.pdf", 0, 1⟩).hoogte_enkel
    = some 280 := by decide
example : (deriveFields ⟨some "01-01-2024", some "10", some "E28"⟩ ⟨"t.pdf", 0, 1⟩).hoogte_stack
    = some 280 := by decide
example : (deriveFields ⟨some "01-01-2024", some "10", some "E28"⟩ ⟨"t.pdf", 0, 1⟩).aantal2
    = some (JsFloat.finite (mkRat 10 1)) := by decide
example : (deriveFields ⟨some "01-01-2024", some "9", some "E15"⟩ ⟨"t.pdf", 0, 1⟩).hoogte_stack
    = some 300 := by decide
example : (deriveFields ⟨some "01-01-2024", some "9", some "E15"⟩ ⟨"t.pdf", 0, 1⟩).aantal2
    = some (JsFloat.finite (mkRat 5 1)) := by decide
example : (deriveFields ⟨some "01-01-2024", some "8", some "M15"⟩ ⟨"t.pdf", 0, 1⟩).pallet
    = "BLOK" := by decide
example : (deriveFields ⟨some "01-01-2024", some "7", some "E2X"⟩ ⟨"t.pdf", 0, 1⟩).warnings
    = ["Unit format invalid.", "Unit invalid; hoogte_enkel missing."] := by decide
example : (deriveFields ⟨some "01-01-2024", some "7", some "E2X"⟩ ⟨"t.pdf", 0, 1⟩).aantal2
    = some (JsFloat.finite (mkRat 7 1)) := by decide
example : (deriveFields ⟨some "01-01-2024", some "12,5", some "E20"⟩ ⟨"t.pdf", 0, 1⟩).aantal2
    = some (JsFloat.finite (mkRat 13 1)) := by decide

/-- The scheduler state of `processQueue` over `N` queued page tasks:
the dispatch cursor, the `running` counter, the `processedPages`
counter, and (for specification purposes) the log of task indices in
dispatch order. -/
structure Sched where
  cursor : ℕ
  running : ℕ
  processed : ℕ
  log : List ℕ
deriving DecidableEq, Repr

/-- One pass of the `while (running < concurrency && cursor < tasks.length)`
dispatch loop of `runNext`, with `fuel` bounding the iteration count
(`N - cursor` iterations always suffice, see `refill`). -/
def refillGo (N : ℕ) : ℕ → Sched → Sched
  | 0, s => s
  | fuel + 1, s =>
    if s.running < 2 ∧ s.cursor < N then
      refillGo N fuel
        { cursor := s.cursor + 1, running := s.running + 1,
          processed := s.processed, log := s.log ++ [s.cursor] }
    else s

/-- The dispatch loop of `runNext`: refill free slots from the cursor
until the concurrency bound 2 or the task list is exhausted. -/
def refill (N : ℕ) (s : Sched) : Sched :=
  refillGo N (N - s.cursor) s

/-- The scheduler state right after `processQueue` starts the run
(the initial `runNext()` call). -/
def schedInit (N : ℕ) : Sched :=
  refill N ⟨0, 0, 0, []⟩

/-- One scheduler event: some in-flight task settles (`ok` records
whether it succeeded or its error was caught — the `.finally` handler
runs either way), decrementing `running`, incrementing
`processedPages`, then re-running `runNext`. -/
inductive SchedStep (N : ℕ) : Sched → Sched → Prop
  | complete (ok : Bool) (s : Sched) (hr : 0 < s.running) :
      SchedStep N s (refill N
        { cursor := s.cursor, running := s.running - 1,
          processed := s.processed + 1, log := s.log })

/-- States the run can be in: the initial state or any number of task
completions later. -/
def SchedReachable (N : ℕ) (s : Sched) : Prop :=
  Relation.ReflTransGen (SchedStep N) (schedInit N) s

/-- Scheduler invariant: at most 2 tasks in flight, the cursor never
passes the list, dispatched = processed + running, tasks are dispatched
in list order (`log = range cursor`), and while a slot is free the list
is exhausted. -/
def SchedInv (N : ℕ) (s : Sched) : Prop :=
  s.running ≤ 2 ∧ s.cursor ≤ N ∧ s.processed + s.running = s.cursor ∧
    s.log = List.range s.cursor ∧ (s.running < 2 → s.cursor = N)

theorem refillGo_inv (N : ℕ) :
    ∀ (fuel : ℕ) (s : Sched), N - s.cursor ≤ fuel →
      s.running ≤ 2 → s.cursor ≤ N → s.processed + s.running = s.cursor →
      s.log = List.range s.cursor → SchedInv N (refillGo N fuel s)
  | 0, s, hfuel, h2, hN, hsum, hlog => by
    have hcur : s.cursor = N := by omega
    exact ⟨h2, hN, hsum, hlog, fun _ => hcur⟩
  | fuel + 1, s, hfuel, h2, hN, hsum, hlog => by
    rw [refillGo]
    by_cases hc : s.running < 2 ∧ s.cursor < N
    · simp only [if_pos hc]
      exact refillGo_inv N fuel _ (by simp; omega) (by simp; omega) (by simp; omega)
        (by simp; omega) (by simp [hlog, List.range_succ])
    · simp only [if_neg hc]
      exact ⟨h2, hN, hsum, hlog, fun hlt => by omega⟩

theorem refill_inv (N : ℕ) (s : Sched)
    (h2 : s.running ≤ 2) (hN : s.cursor ≤ N)
    (hsum : s.processed + s.running = s.cursor)
    (hlog : s.log = List.range s.cursor) : SchedInv N (refill N s) :=
  refillGo_inv N (N - s.cursor) s le_rfl h2 hN hsum hlog

theorem schedInit_inv (N : ℕ) : SchedInv N (schedInit N) :=
  refill_inv N ⟨0, 0, 0, []⟩ (by decide) (Nat.zero_le N) (by decide) rfl

theorem schedStep_inv {N : ℕ} {s t : Sched} (hs : SchedInv N s)
    (hst : SchedStep N s t) : SchedInv N t := by
  rcases hst with ⟨ok, s, hr⟩
  obtain ⟨h2, hN, hsum, hlog, _⟩ := hs
  exact refill_inv N _ (by simp; omega) (by simpa using hN) (by simp; omega)
    (by simpa using hlog)

theorem schedReachable_inv {N : ℕ} {s : Sched} (h : SchedReachable N s) :
    SchedInv N s := by
  induction h with
  | refl => exact schedInit_inv N
  | tail _ hstep ih => exact schedStep_inv ih hstep

/-- A parsed JSON value as returned by `res.json()` (plus `undefined` for the
result of reading an absent property). -/
inductive JsVal where
  | null : JsVal
  | undefined : JsVal
  | bool : Bool → JsVal
  | num : JsFloat → JsVal
  | str : String → JsVal
  | arr : List JsVal → JsVal
  | obj : List (String × JsVal) → JsVal

/-- JS truthiness of a value (`undefined`, `null`, `false`, `0`, NaN and
the empty string are falsy). -/
def jsTruthy : JsVal → Bool
  | .null => false
  | .undefined => false
  | .bool b => b
  | .num .nan => false
  | .num (.finite q) => !(q = 0 : Bool)
  | .num (.inf _) => true
  | .str s => !(s = "" : Bool)
  | .arr _ => true
  | .obj _ => true

/-- JS property read `v.name`: a TypeError on `null`/`undefined`,
the field (or `undefined`) on objects, `undefined` on every other
primitive or array. -/
def getProp (v : JsVal) (name : String) : Except String JsVal :=
  match v with
  | .null => .error "TypeError: cannot read properties of null"
  | .undefined => .error "TypeError: cannot read properties of undefined"
  | .obj fields => .ok ((fields.lookup name).getD .undefined)
  | _ => .ok .undefined

/-- An extraction-boundary response as observed by `callExtractApi`:
the HTTP success flag and the parsed JSON body. -/
structure ExtractResponse where
  ok : Bool
  body : JsVal

/-- `callExtractApi` after the fetch resolved and the body parsed: a
non-success status throws (the catch re-throws, so a task failure is the
`Except.error` case); otherwise the result is `data.notes || []`. -/
def callExtractApi (resp : ExtractResponse) : Except String JsVal :=
  if resp.ok = false then .error "API error"
  else
    match getProp resp.body "notes" with
    | .error e => .error e
    | .ok notesField => .ok (if jsTruthy notesField then notesField else JsVal.arr [])

/-- Conversion of one JSON note element to a `RawNote` as read by
`addNotes`/`deriveFields` (the extraction schema constrains present
`datum`/`aantal`/`unit` fields to strings; anything else is treated as
absent and collapses to `''` under `|| ''` just as in the source). -/
def jsValToRawNote (v : JsVal) : RawNote :=
  match v with
  | .obj fields =>
    { datum := match fields.lookup "datum" with | some (.str s) => some s | _ => none
      aantal := match fields.lookup "aantal" with | some (.str s) => some s | _ => none
      unit := match fields.lookup "unit" with | some (.str s) => some s | _ => none }
  | _ => ⟨none, none, none⟩

/-- `handlePage` after the page was rendered: call the extraction
boundary and, only when the result is an array (`Array.isArray`), add
the notes to the session state; any thrown error propagates to the
scheduler as a task failure. -/
def handlePage (resp : ExtractResponse) (meta : PageMeta) (st : AppState) :
    Except String AppState :=
  match callExtractApi resp with
  | .error e => .error e
  | .ok (.arr elems) => .ok (addNotes (elems.map jsValToRawNote) meta st)
  | .ok _ => .ok st

/-- Whether the body's `notes` field is present and is an array (the
claim-side characterisation of a well-formed notes payload). -/
def notesIsArray (v : JsVal) : Bool :=
  match v with
  | .obj fields =>
    match fields.lookup "notes" with
    | some (.arr _) => true
    | _ => false
  | _ => false

/-- `formatCsvValue` on a string already produced by `String(val)`
(numbers and null are stringified before reaching the quoting logic;
the claims concern string field values). The regex replace
`/"/g → '""'` is `escapeQuotes`. -/
def escapeQuotes : List Char → List Char
  | [] => []
  | c :: cs => if c = '"' then '"' :: '"' :: escapeQuotes cs else c :: escapeQuotes cs

/-- `formatCsvValue` from src/app.js on a present string value: wrap in
quotes, doubling internal quotes, exactly when the value contains a
comma or a quote. -/
def formatCsvValue (s : String) : String :=
  if s.data.contains ',' || s.data.contains '"' then
    "\"" ++ String.mk (escapeQuotes s.data) ++ "\""
  else s

/-- Collapse every doubled quote to a single quote. -/
def collapseQuotes : List Char → List Char
  | [] => []
  | [c] => [c]
  | c :: d :: cs =>
    if c = '"' ∧ d = '"' then '"' :: collapseQuotes cs
    else c :: collapseQuotes (d :: cs)

/-- Modelled from the spec: "re-parsed with comma/quote unescaping" — the
CSV cell reader that is the inverse of the export quoting.  It is not
part of src/app.js (the app only writes CSV); per the spec it strips the
surrounding quotes and collapses doubled internal quotes. -/
def parseCsvCell (s : String) : String :=
  match s.data with
  | '"' :: rest =>
    if rest.getLast? = some '"' then String.mk (collapseQuotes rest.dropLast) else s
  | _ => s

example : formatCsvValue "a,\"b" = "\"a,\"\"b\"" := by decide
example : parseCsvCell "\"a,\"\"b\"" = "a,\"b" := by decide

/-- The trimmed raw unit string `rawUnit` computed in `deriveFields`. -/
def rawUnitOf (note : RawNote) : String := jsTrim (note.unit.getD "")

/-- The trimmed raw quantity string `rawAantal` computed in `deriveFields`. -/
def rawAantalOf (note : RawNote) : String := jsTrim (note.aantal.getD "")

/-- The `unitInfo` record computed in `deriveFields` (the record part of
`parseUnit` does not depend on the incoming warnings list). -/
def unitInfoOf (note : RawNote) : UnitInfo := (parseUnit (rawUnitOf note) []).1

/-- The parsed quantity `aantalNormalized` computed in `deriveFields`. -/
def parsedAantalOf (note : RawNote) : Option JsFloat :=
  (parseAantal (rawAantalOf note) []).1

theorem parseUnit_fst_eq (raw : String) (w : List String) :
    (parseUnit raw w).1 = (parseUnit raw []).1 := rfl

/-- C1: quantity parsing.  For every raw quantity string, after trimming:
empty gives no quantity and the warning "Missing aantal."; otherwise the
first comma is replaced by '.' and the result given to base-10
floating-point parsing; a NaN result gives no quantity and the warning
"Aantal is not a number."; any other result is the parsed quantity with
no warning.  Concretely "12,5" parses to 12.5 and "abc" yields none with
the not-a-number warning. -/
theorem C1_quantity_parsing (raw : String) :
    (jsTrim raw = "" → parseAantal (jsTrim raw) [] = (none, ["Missing aantal."])) ∧
    (jsTrim raw ≠ "" → jsParseFloat (jsReplaceCommaDot (jsTrim raw)) = JsFloat.nan →
      parseAantal (jsTrim raw) [] = (none, ["Aantal is not a number."])) ∧
    (∀ v : JsFloat, jsTrim raw ≠ "" → v ≠ JsFloat.nan →
      jsParseFloat (jsReplaceCommaDot (jsTrim raw)) = v →
      parseAantal (jsTrim raw) [] = (some v, [])) ∧
    parseAantal (jsTrim "12,5") [] = (some (JsFloat.finite (mkRat 25 2)), []) ∧
    parseAantal (jsTrim "abc") [] = (none, ["Aantal is not a number."]) := by
  refine ⟨?_, ?_, ?_, by decide, by decide⟩
  · intro h
    simp [parseAantal, h]
  · intro h1 h2
    simp [parseAantal, h1, h2]
  · intro v h1 h2 h3
    simp [parseAantal, h1, h3, h2]

theorem C1_quantity_parsing_witness :
    parseAantal (jsTrim "") [] = (none, ["Missing aantal."]) ∧
    parseAantal (jsTrim "12,5") [] = (some (JsFloat.finite (mkRat 25 2)), []) :=
  ⟨(C1_quantity_parsing "").1 (by decide),
   (C1_quantity_parsing "12,5").2.2.1 (JsFloat.finite (mkRat 25 2))
     (by decide) (by decide) (by decide)⟩

theorem unitPatternTest_iff (s : String) :
    unitPatternTest s = true ↔
      ∃ a b c, s.data = [a, b, c] ∧ isAsciiUpper a = true ∧
        isAsciiDigit b = true ∧ isAsciiDigit c = true := by
  constructor
  · intro h
    unfold unitPatternTest at h
    rcases hs : s.data with _ | ⟨a, _ | ⟨b, _ | ⟨c, _ | ⟨d, t⟩⟩⟩⟩ <;> rw [hs] at h <;>
      simp at h
    exact ⟨a, b, c, rfl, h.1.1, h.1.2, h.2⟩
  · rintro ⟨a, b, c, hd, ha, hb, hc⟩
    unfold unitPatternTest
    rw [hd]
    simp [ha, hb, hc]

theorem isJsSpace_of_digit {c : Char} (h : isAsciiDigit c = true) :
    isJsSpace c = false := by
  simp only [isAsciiDigit, Bool.and_eq_true, decide_eq_true_eq] at h
  obtain ⟨h1, _⟩ := h
  have hne : c ≠ ' ' ∧ c ≠ '\t' ∧ c ≠ '\n' ∧ c ≠ '\r' ∧ c ≠ '\x0b' ∧ c ≠ '\x0c' := by
    refine ⟨?_, ?_, ?_, ?_, ?_, ?_⟩ <;>
      · rintro rfl
        exact absurd h1 (by decide)
  simp [isJsSpace, hne.1, hne.2.1, hne.2.2.1, hne.2.2.2.1, hne.2.2.2.2.1, hne.2.2.2.2.2]

theorem ne_sign_of_digit {c : Char} (h : isAsciiDigit c = true) :
    c ≠ '+' ∧ c ≠ '-' := by
  simp only [isAsciiDigit, Bool.and_eq_true, decide_eq_true_eq] at h
  obtain ⟨h1, _⟩ := h
  constructor <;>
    · rintro rfl
      exact absurd h1 (by decide)

theorem jsParseIntDec_two_digits (b c : Char) (hb : isAsciiDigit b = true)
    (hc : isAsciiDigit c = true) :
    jsParseIntDec (String.mk [b, c]) =
      some ((10 * (b.toNat - 48) + (c.toNat - 48) : ℕ) : ℤ) := by
  obtain ⟨hb1, hb2⟩ := ne_sign_of_digit hb
  unfold jsParseIntDec
  have hdrop : (String.mk [b, c]).data.dropWhile isJsSpace = [b, c] := by
    simp [List.dropWhile, isJsSpace_of_digit hb]
  rw [hdrop]
  unfold parseSignedDigits
  split
  · next r heq =>
    exact absurd (List.cons.inj heq).1 hb1
  · next r heq =>
    exact absurd (List.cons.inj heq).1 hb2
  · next l hne1 hne2 =>
    have htake : takeDigits [b, c] = ([b, c], []) := by
      simp [takeDigits, hb, hc]
    simp only [htake]
    simp [digitsToNat, digitVal, List.foldl]

/-- C5: unit parsing.  After trimming, the unit is valid iff it is
exactly one ASCII uppercase letter followed by exactly two ASCII digits;
invalidity records the warning "Unit format invalid."; the digits value
is the base-10 integer value of the last two characters exactly when
valid, and none otherwise. -/
theorem C5_unit_validity (raw : String) :
    ((parseUnit (jsTrim raw) []).1.valid = true ↔
      ∃ a b c, (jsTrim raw).data = [a, b, c] ∧ isAsciiUpper a = true ∧
        isAsciiDigit b = true ∧ isAsciiDigit c = true) ∧
    ("Unit format invalid." ∈ (parseUnit (jsTrim raw) []).2 ↔
      (parseUnit (jsTrim raw) []).1.valid = false) ∧
    (∀ a b c, (jsTrim raw).data = [a, b, c] → (parseUnit (jsTrim raw) []).1.valid = true →
      (parseUnit (jsTrim raw) []).1.digits =
        some ((10 * (b.toNat - 48) + (c.toNat - 48) : ℕ) : ℤ)) ∧
    ((parseUnit (jsTrim raw) []).1.valid = false →
      (parseUnit (jsTrim raw) []).1.digits = none) := by
  refine ⟨?_, ?_, ?_, ?_⟩
  · simpa [parseUnit] using unitPatternTest_iff (jsTrim raw)
  · by_cases hv : unitPatternTest (jsTrim raw) = true
    · simp [parseUnit, hv]
    · simp [parseUnit, Bool.of_not_eq_true hv]
  · intro a b c hd hv
    simp only [parseUnit] at hv ⊢
    obtain ⟨x, y, z, hxyz, _, hy, hz⟩ := (unitPatternTest_iff _).mp hv
    obtain ⟨rfl, rfl, rfl⟩ : a = x ∧ b = y ∧ c = z := by
      rw [hd] at hxyz
      simpa using hxyz
    simp only [hv, if_pos]
    rw [hd]
    simpa using jsParseIntDec_two_digits b c hy hz
  · intro hv
    simp only [parseUnit] at hv ⊢
    simp [Bool.of_not_eq_true (by simp [hv] : ¬unitPatternTest (jsTrim raw) = true), hv]

theorem C5_unit_validity_witness :
    (parseUnit (jsTrim "E15") []).1.digits =
      some ((10 * ('1'.toNat - 48) + ('5'.toNat - 48) : ℕ) : ℤ) ∧
    (parseUnit (jsTrim "E2X") []).1.digits = none :=
  ⟨(C5_unit_validity "E15").2.2.1 'E' '1' '5' (by decide) (by decide),
   (C5_unit_validity "E2X").2.2.2 (by decide)⟩

/-- C6: pallet classification.  The unit letter is the first character of
the trimmed raw unit string (empty string when it is empty), computed
regardless of unit validity, and the pallet is "BLOK" exactly when that
letter is "M" and "EURO" for every other letter value. -/
theorem C6_pallet (note : RawNote) (meta : PageMeta) :
    ((rawUnitOf note).data = [] → (unitInfoOf note).letter = "") ∧
    (∀ c cs, (rawUnitOf note).data = c :: cs →
      (unitInfoOf note).letter = String.mk [c]) ∧
    ((deriveFields note meta).pallet = "BLOK" ↔ (unitInfoOf note).letter = "M") ∧
    ((unitInfoOf note).letter ≠ "M" → (deriveFields note meta).pallet = "EURO") := by
  have hp : (deriveFields note meta).pallet =
      if (unitInfoOf note).letter = "M" then "BLOK" else "EURO" := rfl
  refine ⟨?_, ?_, ?_, ?_⟩
  · intro h
    simp [unitInfoOf, parseUnit, h]
  · intro c cs h
    simp [unitInfoOf, parseUnit, h]
  · by_cases hl : (unitInfoOf note).letter = "M" <;> simp [hp, hl]
  · intro hl
    simp [hp, hl]

theorem C6_pallet_witness :
    (unitInfoOf ⟨some "d", some "8", some "M15"⟩).letter = String.mk ['M'] ∧
    (deriveFields ⟨some "d", some "7", some "E2X"⟩ ⟨"t.pdf", 0, 1⟩).pallet = "EURO" :=
  ⟨(C6_pallet ⟨some "d", some "8", some "M15"⟩ ⟨"t.pdf", 0, 1⟩).2.1 'M' ['1', '5']
     (by decide),
   (C6_pallet ⟨some "d", some "7", some "E2X"⟩ ⟨"t.pdf", 0, 1⟩).2.2.2 (by decide)⟩

theorem unitInfo_digits_isSome {note : RawNote} (hv : (unitInfoOf note).valid = true) :
    ∃ d : ℤ, (unitInfoOf note).digits = some d := by
  have hv' : unitPatternTest (rawUnitOf note) = true := by
    simpa [unitInfoOf, parseUnit] using hv
  obtain ⟨a, b, c, hd, _, hb, hc⟩ := (unitPatternTest_iff _).mp hv'
  refine ⟨((10 * (b.toNat - 48) + (c.toNat - 48) : ℕ) : ℤ), ?_⟩
  simp only [unitInfoOf, parseUnit, hv', if_true]
  rw [hd]
  simpa using jsParseIntDec_two_digits b c hb hc

/-- C4: heights.  The single height is digits × 10 when the unit is
valid; an invalid unit gives no single height and the additional warning
"Unit invalid; hoogte_enkel missing."; the stacked height is none when
the single height is none, twice the single height when it is ≤ 150, and
the single height unchanged otherwise. -/
theorem C4_heights (note : RawNote) (meta : PageMeta) :
    ((unitInfoOf note).valid = true →
      ∃ d, (unitInfoOf note).digits = some d ∧
        (deriveFields note meta).hoogte_enkel = some (d * 10)) ∧
    ((unitInfoOf note).valid = false →
      (deriveFields note meta).hoogte_enkel = none ∧
        "Unit invalid; hoogte_enkel missing." ∈ (deriveFields note meta).warnings) ∧
    ((deriveFields note meta).hoogte_enkel = none →
      (deriveFields note meta).hoogte_stack = none) ∧
    (∀ h, (deriveFields note meta).hoogte_enkel = some h →
      (deriveFields note meta).hoogte_stack = some (if h ≤ 150 then h * 2 else h)) := by
  have he : (deriveFields note meta).hoogte_enkel =
      if (unitInfoOf note).valid then (unitInfoOf note).digits.map (· * 10)
      else none := rfl
  have hw : (deriveFields note meta).warnings =
      if (unitInfoOf note).valid
      then (parseUnit (rawUnitOf note) (parseAantal (rawAantalOf note) []).2).2
      else (parseUnit (rawUnitOf note) (parseAantal (rawAantalOf note) []).2).2 ++
        ["Unit invalid; hoogte_enkel missing."] := rfl
  have hs : (deriveFields note meta).hoogte_stack =
      match (deriveFields note meta).hoogte_enkel with
      | none => none
      | some h => some (if h ≤ 150 then h * 2 else h) := rfl
  refine ⟨?_, ?_, ?_, ?_⟩
  · intro hv
    obtain ⟨d, hd⟩ := unitInfo_digits_isSome hv
    exact ⟨d, hd, by simp [he, hv, hd]⟩
  · intro hv
    refine ⟨by simp [he, hv], ?_⟩
    rw [hw]
    simp [hv]
  · intro h
    rw [hs, h]
  · intro h hh
    rw [hs, hh]

theorem C4_heights_witness :
    (∃ d, (unitInfoOf ⟨some "d", some "9", some "E15"⟩).digits = some d ∧
      (deriveFields ⟨some "d", some "9", some "E15"⟩ ⟨"t.pdf", 0, 1⟩).hoogte_enkel =
        some (d * 10)) ∧
    (deriveFields ⟨some "d", some "9", some "E15"⟩ ⟨"t.pdf", 0, 1⟩).hoogte_stack =
      some (if (150 : ℤ) ≤ 150 then 150 * 2 else 150) :=
  ⟨(C4_heights ⟨some "d", some "9", some "E15"⟩ ⟨"t.pdf", 0, 1⟩).1 (by decide),
   (C4_heights ⟨some "d", some "9", some "E15"⟩ ⟨"t.pdf", 0, 1⟩).2.2.2 150 (by decide)⟩

/-- C3: adjusted quantity.  None when the parsed quantity is none;
otherwise, when the single height is known and ≤ 150 it is the quantity
divided by 2 and rounded half-up to the nearest integer, and in every
other case (single height unknown or > 150) the quantity rounded
half-up directly with no halving.  The last two conjuncts pin the
rounding operations down on finite values: `⌊q/2 + 1/2⌋` and
`⌊q + 1/2⌋`. -/
theorem C3_adjusted_quantity (note : RawNote) (meta : PageMeta) :
    (parsedAantalOf note = none → (deriveFields note meta).aantal2 = none) ∧
    (∀ a, parsedAantalOf note = some a →
      (deriveFields note meta).aantal2 =
        some (match (deriveFields note meta).hoogte_enkel with
          | some h => if h ≤ 150 then jsRound (jsHalf a) else jsRound a
          | none => jsRound a)) ∧
    (∀ q : ℚ, jsRound (jsHalf (JsFloat.finite q)) =
      JsFloat.finite ((⌊q / 2 + 1 / 2⌋ : ℤ) : ℚ)) ∧
    (∀ q : ℚ, jsRound (JsFloat.finite q) = JsFloat.finite ((⌊q + 1 / 2⌋ : ℤ) : ℚ)) := by
  have ha2 : (deriveFields note meta).aantal2 =
      match parsedAantalOf note with
      | none => none
      | some a =>
        some (if (match (deriveFields note meta).hoogte_enkel with
                  | some h => if h ≤ 150 then true else false
                  | none => false)
              then jsRound (jsHalf a) else jsRound a) := rfl
  refine ⟨?_, ?_, ?_, ?_⟩
  · intro h
    rw [ha2, h]
  · intro a hpa
    rw [ha2, hpa]
    cases hh : (deriveFields note meta).hoogte_enkel with
    | none => simp
    | some h => by_cases hle : h ≤ 150 <;> simp [hle]
  · intro q
    rw [jsHalf_finite, jsRound_finite]
  · intro q
    exact jsRound_finite q

theorem C3_adjusted_quantity_witness :
    (deriveFields ⟨some "d", some "9", some "E15"⟩ ⟨"t.pdf", 0, 1⟩).aantal2 =
      some (match (deriveFields ⟨some "d", some "9", some "E15"⟩
                    ⟨"t.pdf", 0, 1⟩).hoogte_enkel with
        | some h => if h ≤ 150 then jsRound (jsHalf (JsFloat.finite (mkRat 9 1)))
                    else jsRound (JsFloat.finite (mkRat 9 1))
        | none => jsRound (JsFloat.finite (mkRat 9 1))) :=
  (C3_adjusted_quantity ⟨some "d", some "9", some "E15"⟩ ⟨"t.pdf", 0, 1⟩).2.1
    (JsFloat.finite (mkRat 9 1)) (by decide)

/-- A raw note whose date, quantity and unit fields are unchanged by
trimming (as the collapsed `|| ''` strings). -/
def trimInvariant (note : RawNote) : Prop :=
  jsTrim (note.datum.getD "") = note.datum.getD "" ∧
  jsTrim (note.aantal.getD "") = note.aantal.getD "" ∧
  jsTrim (note.unit.getD "") = note.unit.getD ""

instance (note : RawNote) : Decidable (trimInvariant note) := by
  unfold trimInvariant
  infer_instance

/-- One session of note admissions: each event is one note arriving with
its page metadata (a run of `addNotes` calls, flattened). -/
def runEvents (events : List (PageMeta × RawNote)) : AppState :=
  events.foldl (fun st e => addNote e.1 st e.2) AppState.empty

/-- Store invariant tying rows to the dedupe set: the admission keys of
the persisted rows are pairwise distinct and all recorded. -/
def KeyInv (st : AppState) : Prop :=
  (st.rows.map rowRawKey).Nodup ∧ ∀ r ∈ st.rows, rowRawKey r ∈ st.dedupe

theorem rowRawKey_deriveFields (note : RawNote) (meta : PageMeta) :
    rowRawKey (deriveFields note meta) = dedupeKey meta note := rfl

theorem addNote_preserves_KeyInv {st : AppState} (h : KeyInv st)
    (meta : PageMeta) (note : RawNote) : KeyInv (addNote meta st note) := by
  obtain ⟨hnd, hsub⟩ := h
  by_cases hk : dedupeKey meta note ∈ st.dedupe
  · simpa [addNote, hk] using And.intro hnd hsub
  · simp only [addNote, if_neg hk]
    constructor
    · rw [List.map_append, List.nodup_append]
      refine ⟨hnd, by simp, ?_⟩
      intro k hk1 hk2
      simp only [List.map_cons, List.map_nil, List.mem_singleton,
        rowRawKey_deriveFields] at hk2
      subst hk2
      obtain ⟨r, hr, hkey⟩ := List.mem_map.mp hk1
      exact hk (hkey ▸ hsub r hr)
    · intro r hr
      rcases List.mem_append.mp hr with h1 | h1
      · exact List.mem_append.mpr (Or.inl (hsub r h1))
      · simp only [List.mem_singleton] at h1
        subst h1
        exact List.mem_append.mpr (Or.inr (by simp [rowRawKey_deriveFields]))

theorem runEvents_KeyInv (events : List (PageMeta × RawNote)) :
    KeyInv (runEvents events) := by
  suffices h : ∀ st, KeyInv st →
      KeyInv (events.foldl (fun st e => addNote e.1 st e.2) st) by
    exact h AppState.empty ⟨by simp [AppState.empty], by simp [AppState.empty]⟩
  induction events with
  | nil => exact fun st h => h
  | cons e rest ih => exact fun st h => ih _ (addNote_preserves_KeyInv h e.1 e.2)

/-- A raw note with a leading space in its date field, as the extraction
service may return. -/
def restartNote : RawNote := ⟨some " d", some "1", some "E15"⟩

/-- The metadata of the page the note was extracted from. -/
def restartMeta : PageMeta := ⟨"f.pdf", 0, 1⟩

/-- Admit `restartNote`, persist, restart (rehydrate via
`loadStoredRows`), then admit the identical note again. -/
def restartState : AppState :=
  addNotes [restartNote] restartMeta
    (loadStoredRows (addNotes [restartNote] restartMeta AppState.empty).rows)

/-- C2 counterexample: `loadStoredRows` rehydrates keys from the stored
rows' trimmed fields, not from the raw note, so after a restart the very
same raw note (here with a leading space in its date) is admitted a
second time: two persisted rows then share the same pre-normalisation
dedupe key, violating the invariant as stated. -/
theorem C2_dedupe_counterexample :
    restartState.rows.length = 2 ∧
    ¬ (restartState.rows.map rowRawKey).Nodup := by
  exact ⟨by decide, by decide⟩

/-- C2 (amended): the dedupe invariant as the code maintains it.
(1) A note whose key is already recorded is dropped with the state
unchanged (no row, no warning); (2) within one session (any sequence of
admissions from the empty store) no two persisted rows share a dedupe
key; (3) after a restart, a note whose key matches a persisted row is
rejected provided the note's fields are unchanged by trimming — the
rehydrated keys are built from the stored rows' trimmed fields, so the
guarantee does not extend to notes whose raw fields differ from their
trimmed forms (see the counterexample). -/
theorem C2_dedupe_amended :
    (∀ meta st note, dedupeKey meta note ∈ st.dedupe → addNote meta st note = st) ∧
    (∀ events, ((runEvents events).rows.map rowRawKey).Nodup) ∧
    (∀ rows meta note, trimInvariant note → deriveFields note meta ∈ rows →
      addNote meta (loadStoredRows rows) note = loadStoredRows rows) := by
  refine ⟨?_, ?_, ?_⟩
  · intro meta st note hk
    simp [addNote, hk]
  · intro events
    exact (runEvents_KeyInv events).1
  · intro rows meta note htrim hmem
    have hkey : storedRowKey (deriveFields note meta) = dedupeKey meta note := by
      obtain ⟨h1, h2, h3⟩ := htrim
      show meta.fileName ++ "|" ++ toString meta.pageIndex ++ "|" ++
          jsTrim (note.datum.getD "") ++ "|" ++ jsTrim (note.aantal.getD "") ++ "|" ++
          jsTrim (note.unit.getD "") = _
      rw [h1, h2, h3]
      rfl
    have hmem' : dedupeKey meta note ∈ (loadStoredRows rows).dedupe := by
      rw [← hkey]
      exact List.mem_map.mpr ⟨_, hmem, rfl⟩
    simp [addNote, hmem']

/-- A note already in trimmed form. -/
def trimmedNote : RawNote := ⟨some "d", some "1", some "E15"⟩

theorem C2_dedupe_amended_witness :
    addNote restartMeta ⟨[], [dedupeKey restartMeta trimmedNote]⟩ trimmedNote =
      ⟨[], [dedupeKey restartMeta trimmedNote]⟩ ∧
    addNote restartMeta (loadStoredRows [deriveFields trimmedNote restartMeta])
        trimmedNote =
      loadStoredRows [deriveFields trimmedNote restartMeta] :=
  ⟨C2_dedupe_amended.1 restartMeta ⟨[], [dedupeKey restartMeta trimmedNote]⟩
     trimmedNote (by decide),
   C2_dedupe_amended.2.2 [deriveFields trimmedNote restartMeta] restartMeta
     trimmedNote (by decide) (List.mem_singleton.mpr rfl)⟩

/-- The metadata of the page for the key-collision scenario. -/
def collideMeta : PageMeta := ⟨"g.pdf", 0, 1⟩

/-- A note whose date field itself contains the `'|'` separator. -/
def collideNote1 : RawNote := ⟨some "a|b", some "c", some ""⟩

/-- A different note (different date and quantity) with the same
composite key. -/
def collideNote2 : RawNote := ⟨some "a", some "b|c", some ""⟩

/-- C10: the dedupe key construction is not injective — two distinct
notes for the same file and page whose joined five-field keys coincide
(one date field contains the `'|'` separator), so the second,
non-identical note is silently dropped as a duplicate: only one row is
persisted. -/
theorem C10_key_not_injective :
    collideNote1 ≠ collideNote2 ∧
    dedupeKey collideMeta collideNote1 = dedupeKey collideMeta collideNote2 ∧
    (addNotes [collideNote1, collideNote2] collideMeta AppState.empty).rows.length
      = 1 := by
  exact ⟨by decide, by decide, by decide⟩

/-- C7: bounded-concurrency scheduling.  In every state the run can
reach, at most 2 tasks are in flight; the dispatch log is exactly
`0, 1, 2, …` up to the cursor (tasks are dispatched strictly in
flattened list order, each exactly once); and when the run is idle (no
task in flight) every one of the `N` tasks has been dispatched and the
processed-page count is exactly `N` — each completion, success or
failure alike, incremented it by one. -/
theorem C7_scheduler (N : ℕ) (s : Sched) (h : SchedReachable N s) :
    s.running ≤ 2 ∧ s.log = List.range s.cursor ∧
    (s.running = 0 → s.processed = N ∧ s.log = List.range N) := by
  obtain ⟨h2, hN, hsum, hlog, hfree⟩ := schedReachable_inv h
  refine ⟨h2, hlog, ?_⟩
  intro hr
  have hcur : s.cursor = N := hfree (by omega)
  exact ⟨by omega, by rw [hlog, hcur]⟩

/-- The state after the single task of a one-task run completes. -/
def schedDemoFinal : Sched :=
  refill 1
    { cursor := (schedInit 1).cursor, running := (schedInit 1).running - 1,
      processed := (schedInit 1).processed + 1, log := (schedInit 1).log }

theorem C7_scheduler_witness :
    schedDemoFinal.running ≤ 2 ∧ schedDemoFinal.processed = 1 :=
  have hreach : SchedReachable 1 schedDemoFinal :=
    Relation.ReflTransGen.single (SchedStep.complete true (schedInit 1) (by decide))
  have h := C7_scheduler 1 schedDemoFinal hreach
  ⟨h.1, (h.2.2 (by decide)).1⟩

/-- C8 counterexample: the valid JSON body `null` has no notes array at
all, yet the page task does not succeed — the property read
`data.notes` throws on a null payload, the catch re-throws, and the
task fails with no rows produced. -/
theorem C8_null_payload_counterexample :
    notesIsArray JsVal.null = false ∧
    handlePage ⟨true, JsVal.null⟩ ⟨"t.pdf", 0, 1⟩ AppState.empty =
      .error "TypeError: cannot read properties of null" :=
  ⟨rfl, rfl⟩

/-- C8 (amended): for every successful extraction response whose JSON
body is not `null` (property access on `null` throws; JSON never
contains `undefined`), if the body's `notes` field is absent or not an
array, the page task succeeds and produces zero rows: the condition is
collapsed to an empty note list (or skipped by the `Array.isArray`
guard), never treated as a task failure. -/
theorem C8_malformed_notes_amended (resp : ExtractResponse) (meta : PageMeta)
    (st : AppState) (hok : resp.ok = true) (hnn : resp.body ≠ JsVal.null)
    (hnu : resp.body ≠ JsVal.undefined) (hna : notesIsArray resp.body = false) :
    handlePage resp meta st = .ok st := by
  obtain ⟨ok, body⟩ := resp
  simp only at hok hnn hnu hna
  subst hok
  unfold handlePage callExtractApi
  simp only [Bool.true_eq_false, if_false]
  cases body with
  | null => exact absurd rfl hnn
  | undefined => exact absurd rfl hnu
  | bool b => rfl
  | num x => rfl
  | str s => rfl
  | arr l => rfl
  | obj fields =>
    have hna' : (match fields.lookup "notes" with
        | some (JsVal.arr _) => true
        | _ => false) = false := hna
    cases hl : fields.lookup "notes" with
    | none => simp [getProp, hl, jsTruthy, addNotes]
    | some v =>
      rw [hl] at hna'
      cases v with
      | arr l => exact absurd hna' (by simp)
      | null => simp [getProp, hl, jsTruthy, addNotes]
      | undefined => simp [getProp, hl, jsTruthy, addNotes]
      | bool b => cases b <;> simp [getProp, hl, jsTruthy, addNotes]
      | num x =>
        cases x with
        | nan => simp [getProp, hl, jsTruthy, addNotes]
        | inf b => simp [getProp, hl, jsTruthy]
        | finite q => by_cases hq : q = 0 <;> simp [getProp, hl, jsTruthy, hq, addNotes]
      | str s => by_cases hs : s = "" <;> simp [getProp, hl, jsTruthy, hs, addNotes]
      | obj f2 => simp [getProp, hl, jsTruthy]

/-- A successful response whose notes field is a string, not an array. -/
def malformedResp : ExtractResponse := ⟨true, JsVal.obj [("notes", JsVal.str "oops")]⟩

theorem C8_malformed_notes_amended_witness :
    handlePage malformedResp ⟨"t.pdf", 0, 1⟩ AppState.empty = .ok AppState.empty :=
  C8_malformed_notes_amended malformedResp ⟨"t.pdf", 0, 1⟩ AppState.empty rfl
    (fun h => JsVal.noConfusion h) (fun h => JsVal.noConfusion h) rfl

theorem escapeQuotes_ne_nil (c : Char) (cs : List Char) :
    escapeQuotes (c :: cs) ≠ [] := by
  unfold escapeQuotes
  split <;> simp

theorem collapse_escape (l : List Char) : collapseQuotes (escapeQuotes l) = l := by
  induction l with
  | nil => rfl
  | cons c cs ih =>
    by_cases hc : c = '"'
    · subst hc
      rw [escapeQuotes, if_pos rfl, collapseQuotes, if_pos ⟨rfl, rfl⟩, ih]
    · rw [escapeQuotes, if_neg hc]
      cases hcs : escapeQuotes cs with
      | nil =>
        cases cs with
        | nil => rfl
        | cons d ds => exact absurd hcs (escapeQuotes_ne_nil d ds)
      | cons e es =>
        rw [collapseQuotes, if_neg (fun h => hc h.1), ← hcs, ih]

/-- C9: CSV quoting round-trip.  Every string field value containing a
comma or a quote is exported wrapped in quotes with internal quotes
doubled, and re-parsing the exported cell with comma/quote unescaping
recovers the original string exactly. -/
theorem C9_csv_roundtrip (s : String)
    (h : s.data.contains ',' = true ∨ s.data.contains '"' = true) :
    formatCsvValue s = "\"" ++ String.mk (escapeQuotes s.data) ++ "\"" ∧
    parseCsvCell (formatCsvValue s) = s := by
  have hcond : (s.data.contains ',' || s.data.contains '"') = true := by
    rcases h with h | h
    · rw [h, Bool.true_or]
    · rw [h, Bool.or_true]
  have hfmt : formatCsvValue s = "\"" ++ String.mk (escapeQuotes s.data) ++ "\"" := by
    unfold formatCsvValue
    rw [if_pos hcond]
  refine ⟨hfmt, ?_⟩
  rw [hfmt]
  have hdata : ("\"" ++ String.mk (escapeQuotes s.data) ++ "\"").data
      = '"' :: (escapeQuotes s.data ++ ['"']) := by
    simp [String.data_append]
  unfold parseCsvCell
  rw [hdata]
  simp only [List.getLast?_concat, List.dropLast_concat, if_pos]
  rw [collapse_escape]

theorem C9_csv_roundtrip_witness :
    parseCsvCell (formatCsvValue "a,\"b") = "a,\"b" :=
  (C9_csv_roundtrip "a,\"b" (Or.inl (by decide))).2
